import Mathlib

/-!
Shallow embedding of `src/tick-tack-toe.py`: the `TTTModelScale` game
engine (grid, win and draw detection, turn order), the input-validation
loop of `TTTView.updateCurrentSituation`, and a small heap model of
Python list objects capturing the aliasing behaviour of `copy.copy` in
`TTTModelScale.getData` and of the rows allocated by `startPlay`.
-/

/-- Display name of the player of the zeros (`self.__player_0`). -/
def player_0 : String := "Zero Player"

/-- Display name of the player of the crosses (`self.__player_X`). -/
def player_X : String := "Cross Player"

/-- State of a `TTTModelScale` instance: the field side `size`, the active
player's name, the end and draw flags, the observer list (observers kept
as ids), and the play field, a list of rows of characters (the Python code
stores one-character strings `" "`, `"X"`, `"0"`). -/
structure TTT where
  size : Nat
  active_player : String
  flag_end : Bool
  flag_draw : Bool
  observers : List Nat
  field : List (List Char)
deriving DecidableEq

/-- `TTTModelScale.__init__`: size 3, cross moves first, both flags down,
no observers, empty field. -/
def initTTT : TTT :=
  { size := 3, active_player := player_X, flag_end := false,
    flag_draw := false, observers := [], field := [] }

/-- The `size` property setter. -/
def setSize (s : TTT) (n : Nat) : TTT := { s with size := n }

/-- `registerObserver`: appends to the observer list. -/
def registerObserver (s : TTT) (o : Nat) : TTT :=
  { s with observers := s.observers ++ [o] }

/-- `notifyObserver`: calls `updateCurrentSituation` on every observer in
registration order; modelled as the sequence of notified observers. -/
def notifyObserver (s : TTT) : List Nat := s.observers

/-- `startPlay`: rebuilds the field as `size` fresh rows of `size` spaces
(`buffer = [y for y in " "*size]; field = [list(buffer) for ...]`), then
notifies observers.  It touches neither the flags nor the active player. -/
def startPlay (s : TTT) : TTT :=
  { s with field := List.replicate s.size (List.replicate s.size ' ') }

/-- `getData`: the 5-tuple of (copies of) the components, paired with the
unchanged state to make explicit that the query writes nothing. -/
def getData (s : TTT) :
    (Nat × Bool × Bool × String × List (List Char)) × TTT :=
  ((s.size, s.flag_end, s.flag_draw, s.active_player, s.field), s)

/-- `isFullField`: `False` as soon as some cell holds a space. -/
def isFullField (s : TTT) : Bool :=
  s.field.all (fun line => line.all (fun c => !(c == ' ')))

/-- Reading cell `(i, j)` of a field; the defaults are never reached on
well-formed fields (where Python would instead raise). -/
def cellD (f : List (List Char)) (i j : Nat) : Char :=
  (f.getD i []).getD j ' '

/-- The four accumulating counters of `checkWinner`'s diagonal pass:
`count_X`, `count_0`, `count_X_diagonal_rev`, `count_0_diagonal_rev`. -/
structure DiagCounts where
  cx : Nat
  co : Nat
  crx : Nat
  cro : Nat
deriving DecidableEq

/-- One iteration of the diagonal pass of `checkWinner` at a pair
`(line, column)`: bump the main-diagonal counter of the cell's marker when
`line == column`, then the anti-diagonal one when
`line == size - 1 - column` (an `elif` keeps the `"0"` branches mutually
exclusive with the `"X"` ones). -/
def diagMainUpd (f : List (List Char)) (a : DiagCounts)
    (p : Nat × Nat) : DiagCounts :=
  if p.1 = p.2 then
    if cellD f p.1 p.2 = 'X' then { a with cx := a.cx + 1 }
    else if cellD f p.1 p.2 = '0' then { a with co := a.co + 1 }
    else a
  else a

/-- The second `if` block of the same iteration, on the anti-diagonal
counters. -/
def diagAntiUpd (f : List (List Char)) (size : Nat) (a : DiagCounts)
    (p : Nat × Nat) : DiagCounts :=
  if p.1 = size - 1 - p.2 then
    if cellD f p.1 p.2 = 'X' then { a with crx := a.crx + 1 }
    else if cellD f p.1 p.2 = '0' then { a with cro := a.cro + 1 }
    else a
  else a

/-- The whole loop body: the main-diagonal block then the anti-diagonal
block. -/
def diagStep (f : List (List Char)) (size : Nat) (a : DiagCounts)
    (p : Nat × Nat) : DiagCounts :=
  diagAntiUpd f size (diagMainUpd f a p) p

/-- The iteration order of the diagonal pass:
`for line in range(size): for column in range(size)`. -/
def diagPairs (n : Nat) : List (Nat × Nat) :=
  (List.range n).flatMap (fun l => (List.range n).map (fun c => (l, c)))

/-- Per-row test of the horizontal pass: either marker counted across the
row reaches `size`. -/
def rowHit (n : Nat) (line : List Char) : Bool :=
  (line.count 'X' == n) || (line.count '0' == n)

/-- Column `c` of the field, in the order the vertical pass reads it
(`for line in self.__field: ... line[column]`). -/
def colOf (f : List (List Char)) (c : Nat) : List Char :=
  f.map (fun line => line.getD c ' ')

/-- Per-column test of the vertical pass. -/
def colHit (n : Nat) (f : List (List Char)) (c : Nat) : Bool :=
  ((colOf f c).count 'X' == n) || ((colOf f c).count '0' == n)

/-- The accumulated counter values after the diagonal pass's full scan. -/
def diagAcc (f : List (List Char)) (n : Nat) : DiagCounts :=
  (diagPairs n).foldl (diagStep f n) ⟨0, 0, 0, 0⟩

/-- `checkWinner`: the horizontal pass (counters reset per row), the
vertical pass (counters reset per column), then the single accumulating
pass over all cells for the two diagonals with the final membership test
`self.size in (count_X, count_0, count_X_diagonal_rev,
count_0_diagonal_rev)`. -/
def checkWinner (s : TTT) : Bool :=
  if s.field.any (rowHit s.size) then true
  else if (List.range s.size).any (colHit s.size s.field) then true
  else
    (s.size == (diagAcc s.field s.size).cx) ||
      (s.size == (diagAcc s.field s.size).co) ||
      (s.size == (diagAcc s.field s.size).crx) ||
      (s.size == (diagAcc s.field s.size).cro)

/-- `nextStep`: assign the end flag from `checkWinner`; when not ended
reassign the draw flag from `isFullField`; when neither holds hand the
turn to the other player; finally observers are notified
(`notifyObserver`). -/
def nextStep (s : TTT) : TTT :=
  let s1 := { s with flag_end := checkWinner s }
  if s1.flag_end then s1
  else
    let s2 := { s1 with flag_draw := isFullField s1 }
    if s2.flag_draw then s2
    else
      { s2 with active_player :=
          if s2.active_player = player_X then player_0 else player_X }

/-- Python sequence indexing: a negative index counts from the end of the
sequence; an index outside `[-len, len)` raises `IndexError` (`none`). -/
def pyIdx (len : Nat) (i : Int) : Option Nat :=
  if 0 ≤ i ∧ i < (len : Int) then some i.toNat
  else if -(len : Int) ≤ i ∧ i < 0 then some (((len : Int) + i)).toNat
  else none

/-- The value of the field after the in-place row mutation
`field[x][y] = c`, with both indices already resolved. -/
def writeCell (f : List (List Char)) (x y : Nat) (c : Char) :
    List (List Char) :=
  f.set x ((f.getD x []).set y c)

/-- The item assignment `self.__field[x][y] = c` with Python index
resolution; `none` on `IndexError`. -/
def pyWrite2 (f : List (List Char)) (x y : Int) (c : Char) :
    Option (List (List Char)) :=
  match pyIdx f.length x with
  | none => none
  | some i =>
    match pyIdx (f.getD i []).length y with
    | none => none
    | some j => some (writeCell f i j c)

/-- The marker the active player writes: `"X"` for the cross player,
`"0"` otherwise. -/
def playerMark (s : TTT) : Char :=
  if s.active_player = player_X then 'X' else '0'

/-- `setCell`: writes the active player's marker at `field[x][y]`, then
runs `nextStep`; `none` models an uncaught `IndexError`. -/
def setCell (s : TTT) (x y : Int) : Option TTT :=
  match pyWrite2 s.field x y (playerMark s) with
  | none => none
  | some f => some (nextStep { s with field := f })

/-- The engine state right after the in-place write of the active marker
at resolved position `(rx, ry)`, before `nextStep` runs. -/
def writtenState (s : TTT) (rx ry : Nat) : TTT :=
  { s with field := writeCell s.field rx ry (playerMark s) }

/-- The position a Python index `i` of a length-`n` sequence resolves to:
`n + i` for a negative `i`. -/
def pyResolve (n : Nat) (i : Int) : Nat :=
  if i < 0 then ((n : Int) + i).toNat else i.toNat

/-- The row clause of the winning condition, worded as the specification
does: some row consists of `n` cells all holding the marker `m`. -/
def rowWin (n : Nat) (f : List (List Char)) (m : Char) : Prop :=
  ∃ i, i < n ∧ ∀ j, j < n → cellD f i j = m

/-- Some column consists of `n` cells all holding the marker `m`. -/
def colWin (n : Nat) (f : List (List Char)) (m : Char) : Prop :=
  ∃ j, j < n ∧ ∀ i, i < n → cellD f i j = m

/-- The main diagonal (`row == col`) consists of cells all holding `m`. -/
def mainDiagWin (n : Nat) (f : List (List Char)) (m : Char) : Prop :=
  ∀ i, i < n → cellD f i i = m

/-- The anti-diagonal (`row == n - 1 - col`) consists of cells all
holding `m`. -/
def antiDiagWin (n : Nat) (f : List (List Char)) (m : Char) : Prop :=
  ∀ i, i < n → cellD f i (n - 1 - i) = m

/-- The winning condition as the specification states it, independent of
`checkWinner`: some row, some column, the main diagonal or the
anti-diagonal is filled by one single marker. -/
def specWin (n : Nat) (f : List (List Char)) : Prop :=
  ∃ m, (m = 'X' ∨ m = '0') ∧
    (rowWin n f m ∨ colWin n f m ∨ mainDiagWin n f m ∨ antiDiagWin n f m)

/-- Well-formedness: the field is a `size × size` matrix. -/
@[reducible] def WF (s : TTT) : Prop :=
  s.field.length = s.size ∧ ∀ r ∈ s.field, r.length = s.size

/-- The caller contract of `setCell` stated by the specification:
in-bounds coordinates of a currently empty cell (the view only forwards
such moves). -/
@[reducible] def validMove (s : TTT) (x y : Nat) : Prop :=
  x < s.size ∧ y < s.size ∧ cellD s.field x y = ' '

/-- States of the engine reachable through its interface: the
size-selection start (`size ≥ 3` enforced by `queryChangeSize`), observer
registration, and contract-respecting `setCell` calls. -/
inductive Reach : TTT → Prop where
  | start : ∀ n, 3 ≤ n → Reach (startPlay (setSize initTTT n))
  | register : ∀ s o, Reach s → Reach (registerObserver s o)
  | step : ∀ s x y s', Reach s → validMove s x y →
      setCell s (x : Int) (y : Int) = some s' → Reach s'

/-- The engine invariant carried along `Reach`: the size is at least 3,
the field is well-formed, the end flag always holds the value `checkWinner`
last computed on the current field, and a raised draw flag means the field
is full and the end flag is down. -/
def EngineInv (s : TTT) : Prop :=
  3 ≤ s.size ∧ WF s ∧ s.flag_end = checkWinner s ∧
    (s.flag_draw = true → isFullField s = true) ∧
    (s.flag_draw = true → s.flag_end = false)

/-- `str.strip()` restricted to the space character, the only separator
this program's tokenizer handles. -/
def stripSpaces (l : List Char) : List Char :=
  ((l.dropWhile (fun c => c == ' ')).reverse.dropWhile
      (fun c => c == ' ')).reverse

/-- One `line.replace("  ", " ")`: Python replaces non-overlapping
occurrences left to right, resuming after each replacement. -/
def replaceDoubleSpace : List Char → List Char
  | ' ' :: ' ' :: rest => ' ' :: replaceDoubleSpace rest
  | c :: rest => c :: replaceDoubleSpace rest
  | [] => []

/-- The `while line_next != line` loop collapsing repeated spaces to its
fixpoint; each productive iteration strictly shortens the line, so the
line's length is enough fuel. -/
def collapseLoop : Nat → List Char → List Char
  | 0, l => l
  | fuel + 1, l =>
    let t := replaceDoubleSpace l
    if t = l then l else collapseLoop fuel t

/-- `line.split(" ")` with an explicit separator: the empty string yields
`[""]`, every space opens a new (possibly empty) part. -/
def splitOnSpace : List Char → List (List Char)
  | [] => [[]]
  | c :: rest =>
    if c == ' ' then [] :: splitOnSpace rest
    else
      match splitOnSpace rest with
      | t :: ts => (c :: t) :: ts
      | [] => [[c]]

/-- Value of a nonempty all-digit token. -/
def digitsVal (l : List Char) : Option Nat :=
  if l ≠ [] ∧ l.all Char.isDigit then
    some (l.foldl (fun a c => a * 10 + (c.toNat - Char.toNat '0')) 0)
  else none

/-- `int(token)` for the token shapes reachable after this program's
tokenization: an optional sign followed by decimal digits; anything else
raises `ValueError` (`none`). -/
def pyInt : List Char → Option Int
  | '+' :: rest => (digitsVal rest).map (fun n => (n : Int))
  | '-' :: rest => (digitsVal rest).map (fun n => -(n : Int))
  | l => (digitsVal l).map (fun n => (n : Int))

/-- The read `field[x-1][y-1]` of the occupancy check, with Python index
resolution; `none` is an `IndexError`, which the view does not catch. -/
def pyGet2 (f : List (List Char)) (x y : Int) : Option Char :=
  match pyIdx f.length x with
  | none => none
  | some i =>
    match pyIdx (f.getD i []).length y with
    | none => none
    | some j => some ((f.getD i []).getD j ' ')

/-- Outcome of one iteration of the input loop of
`TTTView.updateCurrentSituation`. -/
inductive MoveOutcome where
  | reject : MoveOutcome
  | accept : Int → Int → MoveOutcome
  | crash : MoveOutcome
deriving DecidableEq

/-- One iteration of the input loop on the line `line`, against the
snapshot `field` of side `size`: the empty-line, token-count, `int`
conversion, upper-bound and occupied-cell checks re-prompt (`reject`);
`accept x y` reaches the `break`, after which `setCell(x-1, y-1)` is
forwarded; an out-of-range read in the occupancy check raises an uncaught
`IndexError` (`crash`). -/
def processLine (size : Nat) (field : List (List Char))
    (line : List Char) : MoveOutcome :=
  if line = [] then .reject
  else
    let stripped := stripSpaces line
    let l := collapseLoop stripped.length stripped
    if 1 < l.count ' ' then .reject
    else
      match splitOnSpace l with
      | [xs, ys] =>
        match pyInt xs, pyInt ys with
        | some x, some y =>
          if (size : Int) < x ∨ (size : Int) < y then .reject
          else
            match pyGet2 field (x - 1) (y - 1) with
            | none => .crash
            | some c => if c ≠ ' ' then .reject else .accept x y
        | _, _ => .reject
      | _ => .reject

/-- Python list objects making up the field: the engine's field variable
is an outer list holding row-object ids; the store maps each id to the
row's contents. -/
structure HeapField where
  rows : List Nat
  store : List (List Char)
deriving DecidableEq

/-- `startPlay`'s allocation `[list(buffer) for y in range(size)]`: `n`
distinct fresh row objects, each holding `n` spaces. -/
def allocField (n : Nat) : HeapField :=
  { rows := List.range n, store := List.replicate n (List.replicate n ' ') }

/-- Contents of the engine's row `i`, read through its own outer list. -/
def rowVal (h : HeapField) (i : Nat) : List Char :=
  h.store.getD (h.rows.getD i 0) []

/-- The engine's authoritative cell `(i, j)`. -/
def cellVal (h : HeapField) (i j : Nat) : Char := (rowVal h i).getD j ' '

/-- The grid inside `getData`'s return value: `copy.copy(self.__field)`
is a shallow copy, a fresh outer list holding the same row objects. -/
def getDataField (h : HeapField) : List Nat := h.rows

/-- In-place mutation `row[j] = c` of the row object `id`. -/
def storeWrite (h : HeapField) (id : Nat) (j : Nat) (c : Char) : HeapField :=
  { h with store := h.store.set id ((h.store.getD id []).set j c) }

/-- An observer writing `snapshot_field[i][j] = c` through the grid of a
snapshot: mutates the row object held at position `i` of the snapshot's
outer list. -/
def snapWrite (h : HeapField) (snap : List Nat) (i j : Nat) (c : Char) :
    HeapField :=
  storeWrite h (snap.getD i 0) j c

/-- The engine's own write `self.__field[x][y] = c`. -/
def engineWrite (h : HeapField) (x j : Nat) (c : Char) : HeapField :=
  storeWrite h (h.rows.getD x 0) j c

/-- The start state of a standard 3 × 3 game. -/
def m0 : TTT := startPlay (setSize initTTT 3)

/-- `m0` after the cross move `(0, 0)`. -/
def m1 : TTT :=
  { size := 3, active_player := player_0, flag_end := false,
    flag_draw := false, observers := [],
    field := [['X', ' ', ' '], [' ', ' ', ' '], [' ', ' ', ' ']] }

/-- `m1` after the zero move `(1, 0)`. -/
def m2 : TTT :=
  { size := 3, active_player := player_X, flag_end := false,
    flag_draw := false, observers := [],
    field := [['X', ' ', ' '], ['0', ' ', ' '], [' ', ' ', ' ']] }

/-- `m2` after the cross move `(0, 1)`. -/
def m3 : TTT :=
  { size := 3, active_player := player_0, flag_end := false,
    flag_draw := false, observers := [],
    field := [['X', 'X', ' '], ['0', ' ', ' '], [' ', ' ', ' ']] }

/-- `m3` after the zero move `(1, 1)`. -/
def m4 : TTT :=
  { size := 3, active_player := player_X, flag_end := false,
    flag_draw := false, observers := [],
    field := [['X', 'X', ' '], ['0', '0', ' '], [' ', ' ', ' ']] }

/-- `m4` after the winning cross move `(0, 2)`: the top row is full of
crosses, the end flag is up and the active player stays the winner. -/
def m5 : TTT :=
  { size := 3, active_player := player_X, flag_end := true,
    flag_draw := false, observers := [],
    field := [['X', 'X', 'X'], ['0', '0', ' '], [' ', ' ', ' ']] }

/-! ## List plumbing -/

theorem forall_mem_iff_getD {l : List Char} {m : Char} :
    (∀ c ∈ l, c = m) ↔ ∀ j, j < l.length → l.getD j ' ' = m := by
  constructor
  · intro h j hj
    rw [List.getD_eq_getElem l ' ' hj]
    exact h _ (List.getElem_mem hj)
  · intro h c hc
    obtain ⟨j, hj, rfl⟩ := List.mem_iff_getElem.mp hc
    have hgd := h j hj
    rwa [List.getD_eq_getElem l ' ' hj] at hgd

theorem count_eq_iff_all {l : List Char} {m : Char} {n : Nat}
    (h : l.length = n) : (l.count m = n) ↔ ∀ c ∈ l, c = m := by
  subst h
  rw [List.count_eq_length]
  constructor
  · intro h c hc
    exact (h c hc).symm
  · intro h c hc
    exact (h c hc).symm

theorem exists_mem_or_split {α : Type} {l : List α} {A B : α → Prop} :
    (∃ x ∈ l, A x ∨ B x) ↔ (∃ x ∈ l, A x) ∨ (∃ x ∈ l, B x) := by
  constructor
  · rintro ⟨x, hx, h | h⟩
    · exact Or.inl ⟨x, hx, h⟩
    · exact Or.inr ⟨x, hx, h⟩
  · rintro (⟨x, hx, h⟩ | ⟨x, hx, h⟩)
    · exact ⟨x, hx, Or.inl h⟩
    · exact ⟨x, hx, Or.inr h⟩

theorem getD_set {α : Type} (l : List α) (i j : Nat) (v d : α) :
    (l.set i v).getD j d = if j = i ∧ i < l.length then v else l.getD j d := by
  by_cases hj : j < l.length
  · have hj' : j < (l.set i v).length := by simpa using hj
    rw [List.getD_eq_getElem _ d hj', List.getD_eq_getElem _ d hj]
    by_cases hji : j = i
    · subst hji
      simp [hj, List.getElem_set_self]
    · rw [List.getElem_set_ne (fun h => hji h.symm)]
      simp [hji]
  · have hj' : ¬ j < (l.set i v).length := by simpa using hj
    rw [List.getD_eq_default _ d (by omega), List.getD_eq_default l d (by omega)]
    have : ¬ (j = i ∧ i < l.length) := by
      rintro ⟨rfl, h⟩; exact hj h
    simp [this]

/-! ## Rows and columns of `checkWinner` -/

theorem row_marker {s : TTT} (hwf : WF s) (m : Char) :
    (∃ line ∈ s.field, line.count m = s.size) ↔
      ∃ i, i < s.size ∧ ∀ j, j < s.size → cellD s.field i j = m := by
  obtain ⟨hlen, hrows⟩ := hwf
  constructor
  · rintro ⟨line, hmem, hcount⟩
    obtain ⟨i, hi, rfl⟩ := List.mem_iff_getElem.mp hmem
    refine ⟨i, hlen ▸ hi, ?_⟩
    intro j hj
    have hrl : (s.field[i]).length = s.size := hrows _ (List.getElem_mem hi)
    have hall := (count_eq_iff_all hrl).mp hcount
    have hj' : j < (s.field[i]).length := by omega
    unfold cellD
    rw [List.getD_eq_getElem s.field [] hi, List.getD_eq_getElem _ ' ' hj']
    exact hall _ (List.getElem_mem hj')
  · rintro ⟨i, hi, hall⟩
    have hi' : i < s.field.length := by omega
    refine ⟨s.field[i], List.getElem_mem hi', ?_⟩
    have hrl : (s.field[i]).length = s.size := hrows _ (List.getElem_mem hi')
    rw [count_eq_iff_all hrl]
    intro c hc
    obtain ⟨j, hj, rfl⟩ := List.mem_iff_getElem.mp hc
    have hj2 : j < s.size := by omega
    have hc2 := hall j hj2
    unfold cellD at hc2
    rwa [List.getD_eq_getElem s.field [] hi', List.getD_eq_getElem _ ' ' hj] at hc2

theorem rowAny_iff {s : TTT} (hwf : WF s) :
    s.field.any (rowHit s.size) = true ↔
      (rowWin s.size s.field 'X' ∨ rowWin s.size s.field '0') := by
  unfold rowWin
  rw [List.any_eq_true]
  have h1 : (∃ line ∈ s.field, rowHit s.size line = true) ↔
      ∃ line ∈ s.field,
        (line.count 'X' = s.size ∨ line.count '0' = s.size) := by
    constructor
    · rintro ⟨line, hm, hh⟩
      refine ⟨line, hm, ?_⟩
      unfold rowHit at hh
      simpa using hh
    · rintro ⟨line, hm, hh⟩
      refine ⟨line, hm, ?_⟩
      unfold rowHit
      simpa using hh
  rw [h1, exists_mem_or_split]
  exact or_congr (row_marker hwf 'X') (row_marker hwf '0')

theorem colOf_getD {f : List (List Char)} {c i : Nat} (hi : i < f.length) :
    (colOf f c).getD i ' ' = cellD f i c := by
  have hi' : i < (colOf f c).length := by
    rw [colOf, List.length_map]; exact hi
  rw [List.getD_eq_getElem _ ' ' hi']
  unfold colOf cellD
  rw [List.getElem_map]
  rw [List.getD_eq_getElem f [] hi]

theorem col_marker {s : TTT} (hwf : WF s) (m : Char) (c : Nat) :
    ((colOf s.field c).count m = s.size) ↔
      ∀ i, i < s.size → cellD s.field i c = m := by
  obtain ⟨hlen, hrows⟩ := hwf
  have hcl : (colOf s.field c).length = s.size := by
    rw [colOf, List.length_map, hlen]
  rw [count_eq_iff_all hcl, forall_mem_iff_getD, hcl]
  constructor
  · intro h i hi
    have hg := h i hi
    rwa [colOf_getD (by omega)] at hg
  · intro h i hi
    rw [colOf_getD (by omega)]
    exact h i hi

theorem colAny_iff {s : TTT} (hwf : WF s) :
    (List.range s.size).any (colHit s.size s.field) = true ↔
      (colWin s.size s.field 'X' ∨ colWin s.size s.field '0') := by
  unfold colWin
  rw [List.any_eq_true]
  constructor
  · rintro ⟨c, hc, hhit⟩
    rw [List.mem_range] at hc
    unfold colHit at hhit
    simp only [Bool.or_eq_true, beq_iff_eq] at hhit
    rcases hhit with h | h
    · exact Or.inl ⟨c, hc, (col_marker hwf 'X' c).mp h⟩
    · exact Or.inr ⟨c, hc, (col_marker hwf '0' c).mp h⟩
  · rintro (⟨c, hc, hall⟩ | ⟨c, hc, hall⟩)
    · refine ⟨c, List.mem_range.mpr hc, ?_⟩
      unfold colHit
      simp only [Bool.or_eq_true, beq_iff_eq]
      exact Or.inl ((col_marker hwf 'X' c).mpr hall)
    · refine ⟨c, List.mem_range.mpr hc, ?_⟩
      unfold colHit
      simp only [Bool.or_eq_true, beq_iff_eq]
      exact Or.inr ((col_marker hwf '0' c).mpr hall)

/-! ## The accumulating diagonal pass -/

theorem foldl_proj_count {σ : Type} (step : σ → Nat × Nat → σ)
    (proj : σ → Nat) (pr : Nat × Nat → Bool)
    (h : ∀ a p, proj (step a p) = proj a + (if pr p then 1 else 0)) :
    ∀ (ps : List (Nat × Nat)) (a : σ),
      proj (ps.foldl step a) = proj a + ps.countP pr := by
  intro ps
  induction ps with
  | nil => intro a; simp
  | cons p rest ih =>
    intro a
    rw [List.foldl_cons, ih, h, List.countP_cons]
    omega

theorem diagMainUpd_cx (f : List (List Char)) (a : DiagCounts)
    (p : Nat × Nat) :
    (diagMainUpd f a p).cx =
      a.cx + (if (p.1 == p.2) && (cellD f p.1 p.2 == 'X') then 1 else 0) := by
  unfold diagMainUpd
  split_ifs <;> simp_all

theorem diagMainUpd_co (f : List (List Char)) (a : DiagCounts)
    (p : Nat × Nat) :
    (diagMainUpd f a p).co =
      a.co + (if (p.1 == p.2) && (cellD f p.1 p.2 == '0') then 1 else 0) := by
  unfold diagMainUpd
  split_ifs <;> simp_all

theorem diagMainUpd_crx (f : List (List Char)) (a : DiagCounts)
    (p : Nat × Nat) : (diagMainUpd f a p).crx = a.crx := by
  unfold diagMainUpd
  split_ifs <;> rfl

theorem diagMainUpd_cro (f : List (List Char)) (a : DiagCounts)
    (p : Nat × Nat) : (diagMainUpd f a p).cro = a.cro := by
  unfold diagMainUpd
  split_ifs <;> rfl

theorem diagAntiUpd_cx (f : List (List Char)) (n : Nat) (a : DiagCounts)
    (p : Nat × Nat) : (diagAntiUpd f n a p).cx = a.cx := by
  unfold diagAntiUpd
  split_ifs <;> rfl

theorem diagAntiUpd_co (f : List (List Char)) (n : Nat) (a : DiagCounts)
    (p : Nat × Nat) : (diagAntiUpd f n a p).co = a.co := by
  unfold diagAntiUpd
  split_ifs <;> rfl

theorem diagAntiUpd_crx (f : List (List Char)) (n : Nat) (a : DiagCounts)
    (p : Nat × Nat) :
    (diagAntiUpd f n a p).crx =
      a.crx +
        (if (p.1 == n - 1 - p.2) && (cellD f p.1 p.2 == 'X') then 1 else 0) := by
  unfold diagAntiUpd
  split_ifs <;> simp_all

theorem diagAntiUpd_cro (f : List (List Char)) (n : Nat) (a : DiagCounts)
    (p : Nat × Nat) :
    (diagAntiUpd f n a p).cro =
      a.cro +
        (if (p.1 == n - 1 - p.2) && (cellD f p.1 p.2 == '0') then 1 else 0) := by
  unfold diagAntiUpd
  split_ifs <;> simp_all

theorem diagStep_cx (f : List (List Char)) (n : Nat) (a : DiagCounts)
    (p : Nat × Nat) :
    (diagStep f n a p).cx =
      a.cx + (if (p.1 == p.2) && (cellD f p.1 p.2 == 'X') then 1 else 0) := by
  unfold diagStep
  rw [diagAntiUpd_cx, diagMainUpd_cx]

theorem diagStep_co (f : List (List Char)) (n : Nat) (a : DiagCounts)
    (p : Nat × Nat) :
    (diagStep f n a p).co =
      a.co + (if (p.1 == p.2) && (cellD f p.1 p.2 == '0') then 1 else 0) := by
  unfold diagStep
  rw [diagAntiUpd_co, diagMainUpd_co]

theorem diagStep_crx (f : List (List Char)) (n : Nat) (a : DiagCounts)
    (p : Nat × Nat) :
    (diagStep f n a p).crx =
      a.crx +
        (if (p.1 == n - 1 - p.2) && (cellD f p.1 p.2 == 'X') then 1 else 0) := by
  unfold diagStep
  rw [diagAntiUpd_crx, diagMainUpd_crx]

theorem diagStep_cro (f : List (List Char)) (n : Nat) (a : DiagCounts)
    (p : Nat × Nat) :
    (diagStep f n a p).cro =
      a.cro +
        (if (p.1 == n - 1 - p.2) && (cellD f p.1 p.2 == '0') then 1 else 0) := by
  unfold diagStep
  rw [diagAntiUpd_cro, diagMainUpd_cro]

theorem countP_range_single (n t : Nat) (q : Nat → Bool) (ht : t < n) :
    (List.range n).countP (fun c => (c == t) && q c) =
      if q t then 1 else 0 := by
  induction n with
  | zero => omega
  | succ k ih =>
    rw [List.range_succ, List.countP_append]
    by_cases h : t < k
    · rw [ih h]
      have h0 : List.countP (fun c => (c == t) && q c) [k] = 0 := by
        simp only [List.countP_cons, List.countP_nil]
        have hk : (k == t) = false := beq_eq_false_iff_ne.mpr (by omega)
        simp [hk]
      rw [h0]
      exact Nat.add_zero _
    · have ht2 : t = k := by omega
      subst ht2
      have h0 : (List.range t).countP (fun c => (c == t) && q c) = 0 := by
        apply List.countP_eq_zero.mpr
        intro c hc
        rw [List.mem_range] at hc
        have hk : (c == t) = false := beq_eq_false_iff_ne.mpr (by omega)
        simp [hk]
      rw [h0]
      simp [List.countP_cons]

theorem countP_row_of_pairs_main (f : List (List Char)) (m : Char)
    (n l : Nat) (hl : l < n) :
    ((List.range n).map (fun c => (l, c))).countP
        (fun p => (p.1 == p.2) && (cellD f p.1 p.2 == m)) =
      if cellD f l l == m then 1 else 0 := by
  rw [List.countP_map]
  have hcongr : ∀ c ∈ List.range n,
      (((fun p : Nat × Nat => (p.1 == p.2) && (cellD f p.1 p.2 == m)) ∘
          (fun c => (l, c))) c = true) ↔
        ((fun c => (c == l) && (cellD f l c == m)) c = true) := by
    intro c _
    simp only [Function.comp_apply, Bool.and_eq_true, beq_iff_eq]
    exact and_congr_left (fun _ => eq_comm)
  rw [List.countP_congr hcongr, countP_range_single n l _ hl]

theorem countP_row_of_pairs_anti (f : List (List Char)) (m : Char)
    (n l : Nat) (hl : l < n) :
    ((List.range n).map (fun c => (l, c))).countP
        (fun p => (p.1 == n - 1 - p.2) && (cellD f p.1 p.2 == m)) =
      if cellD f l (n - 1 - l) == m then 1 else 0 := by
  rw [List.countP_map]
  have hcongr : ∀ c ∈ List.range n,
      (((fun p : Nat × Nat => (p.1 == n - 1 - p.2) && (cellD f p.1 p.2 == m)) ∘
          (fun c => (l, c))) c = true) ↔
        ((fun c => (c == n - 1 - l) && (cellD f l c == m)) c = true) := by
    intro c hc
    have hc2 : c < n := List.mem_range.mp hc
    simp only [Function.comp_apply, Bool.and_eq_true, beq_iff_eq]
    exact and_congr_left (fun _ => by omega)
  rw [List.countP_congr hcongr, countP_range_single n (n - 1 - l) _ (by omega)]

theorem countP_pairs_main (f : List (List Char)) (m : Char) (n : Nat) :
    ∀ ls : List Nat, (∀ l ∈ ls, l < n) →
      ((ls.flatMap (fun l => (List.range n).map (fun c => (l, c)))).countP
          (fun p => (p.1 == p.2) && (cellD f p.1 p.2 == m))) =
        ls.countP (fun i => cellD f i i == m) := by
  intro ls
  induction ls with
  | nil => intro _; simp
  | cons l rest ih =>
    intro hls
    rw [List.flatMap_cons, List.countP_append,
      ih (fun a ha => hls a (List.mem_cons_of_mem _ ha)), List.countP_cons,
      countP_row_of_pairs_main f m n l (hls l (List.mem_cons_self l rest))]
    omega

theorem countP_pairs_anti (f : List (List Char)) (m : Char) (n : Nat) :
    ∀ ls : List Nat, (∀ l ∈ ls, l < n) →
      ((ls.flatMap (fun l => (List.range n).map (fun c => (l, c)))).countP
          (fun p => (p.1 == n - 1 - p.2) && (cellD f p.1 p.2 == m))) =
        ls.countP (fun i => cellD f i (n - 1 - i) == m) := by
  intro ls
  induction ls with
  | nil => intro _; simp
  | cons l rest ih =>
    intro hls
    rw [List.flatMap_cons, List.countP_append,
      ih (fun a ha => hls a (List.mem_cons_of_mem _ ha)), List.countP_cons,
      countP_row_of_pairs_anti f m n l (hls l (List.mem_cons_self l rest))]
    omega

theorem diag_main_count (f : List (List Char)) (n : Nat) (m : Char) :
    (diagPairs n).countP
        (fun p => (p.1 == p.2) && (cellD f p.1 p.2 == m)) =
      (List.range n).countP (fun i => cellD f i i == m) := by
  unfold diagPairs
  exact countP_pairs_main f m n (List.range n)
    (fun l hl => List.mem_range.mp hl)

theorem diag_anti_count (f : List (List Char)) (n : Nat) (m : Char) :
    (diagPairs n).countP
        (fun p => (p.1 == n - 1 - p.2) && (cellD f p.1 p.2 == m)) =
      (List.range n).countP (fun i => cellD f i (n - 1 - i) == m) := by
  unfold diagPairs
  exact countP_pairs_anti f m n (List.range n)
    (fun l hl => List.mem_range.mp hl)

theorem diagAcc_cx (f : List (List Char)) (n : Nat) :
    (diagAcc f n).cx = (List.range n).countP (fun i => cellD f i i == 'X') := by
  unfold diagAcc
  rw [foldl_proj_count (diagStep f n) DiagCounts.cx _ (diagStep_cx f n),
    diag_main_count]
  exact Nat.zero_add _

theorem diagAcc_co (f : List (List Char)) (n : Nat) :
    (diagAcc f n).co = (List.range n).countP (fun i => cellD f i i == '0') := by
  unfold diagAcc
  rw [foldl_proj_count (diagStep f n) DiagCounts.co _ (diagStep_co f n),
    diag_main_count]
  exact Nat.zero_add _

theorem diagAcc_crx (f : List (List Char)) (n : Nat) :
    (diagAcc f n).crx =
      (List.range n).countP (fun i => cellD f i (n - 1 - i) == 'X') := by
  unfold diagAcc
  rw [foldl_proj_count (diagStep f n) DiagCounts.crx _ (diagStep_crx f n),
    diag_anti_count]
  exact Nat.zero_add _

theorem diagAcc_cro (f : List (List Char)) (n : Nat) :
    (diagAcc f n).cro =
      (List.range n).countP (fun i => cellD f i (n - 1 - i) == '0') := by
  unfold diagAcc
  rw [foldl_proj_count (diagStep f n) DiagCounts.cro _ (diagStep_cro f n),
    diag_anti_count]
  exact Nat.zero_add _

theorem countP_range_eq_iff (n : Nat) (q : Nat → Bool) :
    ((List.range n).countP q = n) ↔ ∀ i, i < n → q i = true := by
  constructor
  · intro h i hi
    have hlen : (List.range n).countP q = (List.range n).length := by
      rw [h, List.length_range]
    exact List.countP_eq_length.mp hlen i (List.mem_range.mpr hi)
  · intro h
    have hall : ∀ a ∈ List.range n, q a = true :=
      fun a ha => h a (List.mem_range.mp ha)
    rw [List.countP_eq_length.mpr hall, List.length_range]

theorem mainDiag_count_iff (f : List (List Char)) (n : Nat) (m : Char) :
    (n = (List.range n).countP (fun i => cellD f i i == m)) ↔
      mainDiagWin n f m := by
  rw [eq_comm, countP_range_eq_iff]
  unfold mainDiagWin
  simp [beq_iff_eq]

theorem antiDiag_count_iff (f : List (List Char)) (n : Nat) (m : Char) :
    (n = (List.range n).countP (fun i => cellD f i (n - 1 - i) == m)) ↔
      antiDiagWin n f m := by
  rw [eq_comm, countP_range_eq_iff]
  unfold antiDiagWin
  simp [beq_iff_eq]

/-! ## `checkWinner` against the specification's winning condition -/

theorem checkWinner_eq_or (s : TTT) :
    checkWinner s = (s.field.any (rowHit s.size) ||
      ((List.range s.size).any (colHit s.size s.field) ||
        ((s.size == (diagAcc s.field s.size).cx) ||
          (s.size == (diagAcc s.field s.size).co) ||
          (s.size == (diagAcc s.field s.size).crx) ||
          (s.size == (diagAcc s.field s.size).cro)))) := by
  unfold checkWinner
  cases h1 : s.field.any (rowHit s.size) <;>
    cases h2 : (List.range s.size).any (colHit s.size s.field) <;>
    simp [h1, h2]

theorem diagCheck_iff (s : TTT) :
    ((((s.size == (diagAcc s.field s.size).cx) = true ∨
        (s.size == (diagAcc s.field s.size).co) = true) ∨
       (s.size == (diagAcc s.field s.size).crx) = true) ∨
      (s.size == (diagAcc s.field s.size).cro) = true) ↔
      ((mainDiagWin s.size s.field 'X' ∨ mainDiagWin s.size s.field '0') ∨
        (antiDiagWin s.size s.field 'X' ∨ antiDiagWin s.size s.field '0')) := by
  simp only [beq_iff_eq]
  rw [diagAcc_cx, diagAcc_co, diagAcc_crx, diagAcc_cro,
    mainDiag_count_iff, mainDiag_count_iff, antiDiag_count_iff,
    antiDiag_count_iff]
  tauto

theorem specWin_iff_parts (n : Nat) (f : List (List Char)) :
    specWin n f ↔
      ((rowWin n f 'X' ∨ rowWin n f '0') ∨
        ((colWin n f 'X' ∨ colWin n f '0') ∨
          ((mainDiagWin n f 'X' ∨ mainDiagWin n f '0') ∨
            (antiDiagWin n f 'X' ∨ antiDiagWin n f '0')))) := by
  unfold specWin
  constructor
  · rintro ⟨m, (rfl | rfl), (h | h | h | h)⟩ <;> tauto
  · rintro ((h | h) | (h | h) | ((h | h) | (h | h)))
    · exact ⟨'X', Or.inl rfl, Or.inl h⟩
    · exact ⟨'0', Or.inr rfl, Or.inl h⟩
    · exact ⟨'X', Or.inl rfl, Or.inr (Or.inl h)⟩
    · exact ⟨'0', Or.inr rfl, Or.inr (Or.inl h)⟩
    · exact ⟨'X', Or.inl rfl, Or.inr (Or.inr (Or.inl h))⟩
    · exact ⟨'0', Or.inr rfl, Or.inr (Or.inr (Or.inl h))⟩
    · exact ⟨'X', Or.inl rfl, Or.inr (Or.inr (Or.inr h))⟩
    · exact ⟨'0', Or.inr rfl, Or.inr (Or.inr (Or.inr h))⟩

/-- C1: on every well-formed grid -- in particular on every grid reachable
by placing marks -- `checkWinner` returns `True` exactly when some row,
some column, the main diagonal or the anti-diagonal consists of `N` cells
all holding the same single marker; since `specWin` checks the two
diagonals independently, the single accumulating diagonal pass decides
exactly the same wins as independent per-diagonal checks. -/
theorem checkWinner_iff_specWin (s : TTT) (hwf : WF s) :
    checkWinner s = true ↔ specWin s.size s.field := by
  rw [checkWinner_eq_or]
  simp only [Bool.or_eq_true]
  rw [specWin_iff_parts]
  exact or_congr (rowAny_iff hwf) (or_congr (colAny_iff hwf) (diagCheck_iff s))

/-- Witness for C1 at the concrete won position `m5`. -/
theorem checkWinner_iff_specWin_witness :
    WF m5 ∧ (checkWinner m5 = true ↔ specWin m5.size m5.field) :=
  ⟨by decide, checkWinner_iff_specWin m5 (by decide)⟩

/-! ## `nextStep` and `setCell` on valid moves -/

theorem checkWinner_fields {s t : TTT} (hf : s.field = t.field)
    (hn : s.size = t.size) : checkWinner s = checkWinner t := by
  unfold checkWinner
  rw [hf, hn]

theorem isFullField_fields {s t : TTT} (hf : s.field = t.field) :
    isFullField s = isFullField t := by
  unfold isFullField
  rw [hf]

theorem nextStep_field (s : TTT) : (nextStep s).field = s.field := by
  unfold nextStep
  by_cases h1 : checkWinner s = true
  · simp [h1]
  · by_cases h2 : s.field.all (fun line => line.all (fun c => !(c == ' '))) = true <;>
      simp [h1, h2, isFullField]

theorem nextStep_size (s : TTT) : (nextStep s).size = s.size := by
  unfold nextStep
  by_cases h1 : checkWinner s = true
  · simp [h1]
  · by_cases h2 : s.field.all (fun line => line.all (fun c => !(c == ' '))) = true <;>
      simp [h1, h2, isFullField]

theorem nextStep_observers (s : TTT) :
    (nextStep s).observers = s.observers := by
  unfold nextStep
  by_cases h1 : checkWinner s = true
  · simp [h1]
  · by_cases h2 : s.field.all (fun line => line.all (fun c => !(c == ' '))) = true <;>
      simp [h1, h2, isFullField]

theorem nextStep_flag_end (s : TTT) :
    (nextStep s).flag_end = checkWinner s := by
  unfold nextStep
  by_cases h1 : checkWinner s = true
  · simp [h1]
  · by_cases h2 : s.field.all (fun line => line.all (fun c => !(c == ' '))) = true <;>
      simp [h1, h2, isFullField]

theorem nextStep_flag_draw (s : TTT) :
    (nextStep s).flag_draw =
      (if checkWinner s = true then s.flag_draw else isFullField s) := by
  unfold nextStep
  by_cases h1 : checkWinner s = true
  · simp [h1]
  · by_cases h2 : s.field.all (fun line => line.all (fun c => !(c == ' '))) = true <;>
      simp [h1, h2, isFullField]

theorem nextStep_active (s : TTT) :
    (nextStep s).active_player =
      (if checkWinner s = true then s.active_player
        else if isFullField s = true then s.active_player
        else if s.active_player = player_X then player_0 else player_X) := by
  unfold nextStep
  by_cases h1 : checkWinner s = true
  · simp [h1]
  · by_cases h2 : s.field.all (fun line => line.all (fun c => !(c == ' '))) = true <;>
      simp [h1, h2, isFullField]

theorem nextStep_all (t : TTT) :
    (nextStep t).field = t.field ∧ (nextStep t).size = t.size ∧
    (nextStep t).observers = t.observers ∧
    (nextStep t).flag_end = checkWinner (nextStep t) ∧
    ((nextStep t).flag_draw =
      if checkWinner (nextStep t) = true then t.flag_draw
      else isFullField (nextStep t)) ∧
    ((nextStep t).active_player =
      if checkWinner (nextStep t) = true then t.active_player
      else if isFullField (nextStep t) = true then t.active_player
      else if t.active_player = player_X then player_0 else player_X) := by
  have hcw : checkWinner (nextStep t) = checkWinner t :=
    checkWinner_fields (nextStep_field t) (nextStep_size t)
  have hff : isFullField (nextStep t) = isFullField t :=
    isFullField_fields (nextStep_field t)
  refine ⟨nextStep_field t, nextStep_size t, nextStep_observers t, ?_, ?_, ?_⟩
  · rw [nextStep_flag_end, hcw]
  · rw [nextStep_flag_draw, hcw, hff]
  · rw [nextStep_active, hcw, hff]

theorem pyIdx_nat (len : Nat) (x : Nat) (hx : x < len) :
    pyIdx len (x : Int) = some x := by
  unfold pyIdx
  rw [if_pos ⟨Int.ofNat_nonneg x, by exact_mod_cast hx⟩]
  simp

theorem pyIdx_some (len : Nat) (i : Int) (h1 : -(len : Int) ≤ i)
    (h2 : i < (len : Int)) :
    pyIdx len i = some (pyResolve len i) ∧ pyResolve len i < len := by
  unfold pyIdx pyResolve
  by_cases h : 0 ≤ i
  · rw [if_pos ⟨h, h2⟩, if_neg (by omega)]
    refine ⟨rfl, ?_⟩
    omega
  · rw [if_neg (by omega), if_pos ⟨h1, by omega⟩, if_pos (by omega)]
    refine ⟨rfl, ?_⟩
    omega

theorem length_writeCell (f : List (List Char)) (x y : Nat) (c : Char) :
    (writeCell f x y c).length = f.length := by
  unfold writeCell
  exact List.length_set f x _

theorem cellD_writeCell {f : List (List Char)} {x y : Nat} {c : Char}
    (hx : x < f.length) (hy : y < (f.getD x []).length) (i j : Nat) :
    cellD (writeCell f x y c) i j =
      if i = x ∧ j = y then c else cellD f i j := by
  unfold writeCell cellD
  rw [getD_set]
  by_cases hix : i = x
  · subst hix
    rw [if_pos ⟨rfl, hx⟩, getD_set]
    by_cases hjy : j = y
    · subst hjy
      rw [if_pos ⟨rfl, hy⟩, if_pos ⟨rfl, rfl⟩]
    · rw [if_neg (by tauto), if_neg (by tauto)]
  · rw [if_neg (by tauto), if_neg (by tauto)]

theorem rows_writeCell {f : List (List Char)} {n x y : Nat} {c : Char}
    (hlen : f.length = n) (hrows : ∀ r ∈ f, r.length = n)
    (hx : x < f.length) :
    ∀ r ∈ writeCell f x y c, r.length = n := by
  intro r hr
  unfold writeCell at hr
  rcases List.mem_or_eq_of_mem_set hr with h | h
  · exact hrows r h
  · subst h
    rw [List.length_set, List.getD_eq_getElem _ [] hx]
    exact hrows _ (List.getElem_mem hx)

theorem setCell_nat_eq (s : TTT) (x y : Nat) (hwf : WF s)
    (hx : x < s.size) (hy : y < s.size) :
    setCell s (x : Int) (y : Int) =
      some (nextStep { s with field := writeCell s.field x y (playerMark s) }) := by
  have hx' : x < s.field.length := by rw [hwf.1]; exact hx
  have hrl : (s.field.getD x []).length = s.size := by
    rw [List.getD_eq_getElem _ [] hx']
    exact hwf.2 _ (List.getElem_mem hx')
  have hy' : y < (s.field.getD x []).length := by rw [hrl]; exact hy
  unfold setCell pyWrite2
  rw [pyIdx_nat s.field.length x hx']
  simp only []
  rw [pyIdx_nat (s.field.getD x []).length y hy']

theorem setCell_step_facts (s s' : TTT) (x y : Nat) (hwf : WF s)
    (hx : x < s.size) (hy : y < s.size)
    (hs : setCell s (x : Int) (y : Int) = some s') :
    s'.field = writeCell s.field x y (playerMark s) ∧
    s'.size = s.size ∧ s'.observers = s.observers ∧
    s'.flag_end = checkWinner s' ∧
    s'.flag_draw =
      (if checkWinner s' = true then s.flag_draw else isFullField s') ∧
    s'.active_player =
      (if checkWinner s' = true then s.active_player
        else if isFullField s' = true then s.active_player
        else if s.active_player = player_X then player_0 else player_X) := by
  rw [setCell_nat_eq s x y hwf hx hy] at hs
  injection hs with hs
  subst hs
  exact nextStep_all { s with field := writeCell s.field x y (playerMark s) }

/-! ## The start state and the reachability invariant -/

theorem WF_startPlay (s : TTT) (n : Nat) : WF (startPlay (setSize s n)) := by
  refine ⟨?_, ?_⟩
  · exact List.length_replicate n _
  · intro r hr
    rw [List.eq_of_mem_replicate hr]
    exact List.length_replicate n ' '

theorem cellD_blank (n i j : Nat) :
    cellD (List.replicate n (List.replicate n ' ')) i j = ' ' := by
  unfold cellD
  by_cases hi : i < n
  · rw [List.getD_eq_getElem _ [] (by simpa using hi), List.getElem_replicate]
    by_cases hj : j < n
    · rw [List.getD_eq_getElem _ ' ' (by simpa using hj),
        List.getElem_replicate]
    · rw [List.getD_eq_default _ ' ' (by simpa using hj)]
  · rw [List.getD_eq_default _ [] (by simpa using hi)]
    rfl

theorem specWin_blank (n : Nat) (hn : 1 ≤ n) :
    ¬ specWin n (List.replicate n (List.replicate n ' ')) := by
  rintro ⟨m, hm, hcase⟩
  have hm' : m ≠ ' ' := by rcases hm with rfl | rfl <;> decide
  rcases hcase with ⟨i, hi, hall⟩ | ⟨j, hj, hall⟩ | hall | hall
  · have h0 := hall 0 (by omega)
    rw [cellD_blank] at h0
    exact hm' h0.symm
  · have h0 := hall 0 (by omega)
    rw [cellD_blank] at h0
    exact hm' h0.symm
  · have h0 := hall 0 (by omega)
    rw [cellD_blank] at h0
    exact hm' h0.symm
  · have h0 := hall 0 (by omega)
    rw [cellD_blank] at h0
    exact hm' h0.symm

theorem checkWinner_blank (s : TTT) (n : Nat) (hn : 1 ≤ n) :
    checkWinner (startPlay (setSize s n)) = false := by
  have hwf := WF_startPlay s n
  rw [← Bool.not_eq_true]
  intro h
  exact specWin_blank n hn ((checkWinner_iff_specWin _ hwf).mp h)

theorem isFullField_no_space {s : TTT} (h : isFullField s = true)
    {x y : Nat} (hx : x < s.field.length)
    (hy : y < (s.field.getD x []).length) :
    cellD s.field x y ≠ ' ' := by
  unfold isFullField at h
  rw [List.all_eq_true] at h
  have hrow := h (s.field.getD x [])
    (by rw [List.getD_eq_getElem _ [] hx]; exact List.getElem_mem hx)
  rw [List.all_eq_true] at hrow
  have hc := hrow ((s.field.getD x []).getD y ' ')
    (by rw [List.getD_eq_getElem _ ' ' hy]; exact List.getElem_mem hy)
  unfold cellD
  simpa using hc

theorem validMove_not_draw {s : TTT} (hwf : WF s) {x y : Nat}
    (hv : validMove s x y) (hfull : s.flag_draw = true → isFullField s = true) :
    s.flag_draw = false := by
  obtain ⟨hx, hy, hempty⟩ := hv
  by_contra hc
  rw [Bool.not_eq_false] at hc
  have hfl := hfull hc
  have hx' : x < s.field.length := by rw [hwf.1]; exact hx
  have hy' : y < (s.field.getD x []).length := by
    rw [List.getD_eq_getElem _ [] hx', hwf.2 _ (List.getElem_mem hx')]
    exact hy
  exact isFullField_no_space hfl hx' hy' hempty

theorem specWin_mono {n : Nat} {f : List (List Char)} {x y : Nat} {c : Char}
    (hx : x < f.length) (hy : y < (f.getD x []).length)
    (hempty : cellD f x y = ' ') (hw : specWin n f) :
    specWin n (writeCell f x y c) := by
  obtain ⟨m, hm, hcase⟩ := hw
  have hm' : m ≠ ' ' := by rcases hm with rfl | rfl <;> decide
  refine ⟨m, hm, ?_⟩
  have hcell : ∀ i j, cellD f i j = m → cellD (writeCell f x y c) i j = m := by
    intro i j hij
    rw [cellD_writeCell hx hy i j]
    have hne : ¬ (i = x ∧ j = y) := by
      rintro ⟨rfl, rfl⟩
      rw [hempty] at hij
      exact hm' hij.symm
    simp [hne, hij]
  rcases hcase with ⟨i, hi, hall⟩ | ⟨j, hj, hall⟩ | hall | hall
  · exact Or.inl ⟨i, hi, fun j hj => hcell _ _ (hall j hj)⟩
  · exact Or.inr (Or.inl ⟨j, hj, fun i hi => hcell _ _ (hall i hi)⟩)
  · exact Or.inr (Or.inr (Or.inl (fun i hi => hcell _ _ (hall i hi))))
  · exact Or.inr (Or.inr (Or.inr (fun i hi => hcell _ _ (hall i hi))))

theorem reach_inv {s : TTT} (h : Reach s) : EngineInv s := by
  induction h with
  | start n hn =>
    refine ⟨hn, WF_startPlay initTTT n, ?_, ?_, ?_⟩
    · rw [checkWinner_blank initTTT n (by omega)]
      rfl
    · intro hc
      exact absurd hc (by simp [startPlay, setSize, initTTT])
    · intro hc
      exact absurd hc (by simp [startPlay, setSize, initTTT])
  | register s o hs ih =>
    obtain ⟨h1, h2, h3, h4, h5⟩ := ih
    exact ⟨h1, h2, h3, h4, h5⟩
  | step s x y s' hs hv he ih =>
    obtain ⟨hsz, hwf, hend, hfull, hexcl⟩ := ih
    obtain ⟨hx, hy, hempty⟩ := hv
    obtain ⟨hfld, hsz', hobs', hend', hdraw', hact'⟩ :=
      setCell_step_facts s s' x y hwf hx hy he
    have hdrawF : s.flag_draw = false :=
      validMove_not_draw hwf ⟨hx, hy, hempty⟩ hfull
    refine ⟨by omega, ?_, hend', ?_, ?_⟩
    · refine ⟨?_, ?_⟩
      · rw [hfld, length_writeCell, hwf.1, hsz']
      · intro r hr
        rw [hsz']
        exact rows_writeCell hwf.1 hwf.2 (by rw [hwf.1]; exact hx) r
          (by rw [← hfld]; exact hr)
    · intro hc
      rw [hdraw'] at hc
      by_cases hcw : checkWinner s' = true
      · rw [if_pos hcw] at hc
        rw [hdrawF] at hc
        cases hc
      · rw [if_neg hcw] at hc
        exact hc
    · intro hc
      rw [hdraw'] at hc
      by_cases hcw : checkWinner s' = true
      · rw [if_pos hcw] at hc
        rw [hdrawF] at hc
        cases hc
      · rw [hend']
        exact Bool.eq_false_iff.mpr hcw

/-! ## Claims on flags and turn order -/

theorem WF_step {s s' : TTT} (hwf : WF s) {x y : Nat} (hx : x < s.size)
    (hfld : s'.field = writeCell s.field x y (playerMark s))
    (hsz' : s'.size = s.size) : WF s' := by
  have hx' : x < s.field.length := by rw [hwf.1]; exact hx
  refine ⟨?_, ?_⟩
  · rw [hfld, length_writeCell, hwf.1, hsz']
  · intro r hr
    rw [hsz']
    exact rows_writeCell hwf.1 hwf.2 hx' r (by rw [← hfld]; exact hr)

/-- C2: on every reachable state, the end flag and the draw flag are never
both up, and a contract-respecting `setCell` call (in-bounds empty target,
the only calls the view issues) never takes the end flag or the draw flag
from up back to down. -/
theorem terminal_flags_stable (s s' : TTT) (x y : Nat)
    (hr : Reach s) (hv : validMove s x y)
    (hs : setCell s (x : Int) (y : Int) = some s') :
    ¬(s.flag_end = true ∧ s.flag_draw = true) ∧
    (s.flag_end = true → s'.flag_end = true) ∧
    (s.flag_draw = true → s'.flag_draw = true) := by
  obtain ⟨hsz, hwf, hend, hfull, hexcl⟩ := reach_inv hr
  obtain ⟨hx, hy, hempty⟩ := hv
  obtain ⟨hfld, hsz', hobs', hend', hdraw', hact'⟩ :=
    setCell_step_facts s s' x y hwf hx hy hs
  have hdrawF : s.flag_draw = false :=
    validMove_not_draw hwf ⟨hx, hy, hempty⟩ hfull
  refine ⟨?_, ?_, ?_⟩
  · rintro ⟨he, hd⟩
    rw [hexcl hd] at he
    cases he
  · intro he
    have hcw : checkWinner s = true := by rw [← hend]; exact he
    have hspec : specWin s.size s.field := (checkWinner_iff_specWin s hwf).mp hcw
    have hx' : x < s.field.length := by rw [hwf.1]; exact hx
    have hy' : y < (s.field.getD x []).length := by
      rw [List.getD_eq_getElem _ [] hx', hwf.2 _ (List.getElem_mem hx')]
      exact hy
    have hspec' : specWin s.size (writeCell s.field x y (playerMark s)) :=
      specWin_mono hx' hy' hempty hspec
    have hwf' : WF s' := WF_step hwf hx hfld hsz'
    have hspec'' : specWin s'.size s'.field := by
      rw [hsz', hfld]
      exact hspec'
    rw [hend']
    exact (checkWinner_iff_specWin s' hwf').mpr hspec''
  · intro hd
    rw [hdrawF] at hd
    cases hd

/-- Witness for C2 at the first move of a fresh 3 × 3 game. -/
theorem terminal_flags_stable_witness :
    ¬(m0.flag_end = true ∧ m0.flag_draw = true) ∧
    (m0.flag_end = true → m1.flag_end = true) ∧
    (m0.flag_draw = true → m1.flag_draw = true) :=
  terminal_flags_stable m0 m1 0 0 (Reach.start 3 (by decide)) (by decide)
    (by decide)

theorem isFullField_iff (t : TTT) :
    isFullField t = true ↔ ∀ row ∈ t.field, ∀ c ∈ row, c ≠ ' ' := by
  unfold isFullField
  rw [List.all_eq_true]
  constructor
  · intro h row hrow c hc
    have hr := h row hrow
    rw [List.all_eq_true] at hr
    simpa using hr c hc
  · intro h row hrow
    rw [List.all_eq_true]
    intro c hc
    simpa using h row hrow c hc

/-- C7: after every contract-respecting placement from a reachable state,
the draw flag is up exactly when no winning line exists and the grid is
full; and `isFullField` returns `True` exactly when no cell holds the
empty marker. -/
theorem draw_iff_full_no_win (s s' : TTT) (x y : Nat)
    (hr : Reach s) (hv : validMove s x y)
    (hs : setCell s (x : Int) (y : Int) = some s') :
    (s'.flag_draw = true ↔
      (¬ specWin s'.size s'.field ∧ isFullField s' = true)) ∧
    (isFullField s' = true ↔ ∀ row ∈ s'.field, ∀ c ∈ row, c ≠ ' ') := by
  obtain ⟨hsz, hwf, hend, hfull, hexcl⟩ := reach_inv hr
  obtain ⟨hx, hy, hempty⟩ := hv
  obtain ⟨hfld, hsz', hobs', hend', hdraw', hact'⟩ :=
    setCell_step_facts s s' x y hwf hx hy hs
  have hdrawF : s.flag_draw = false :=
    validMove_not_draw hwf ⟨hx, hy, hempty⟩ hfull
  have hwf' : WF s' := WF_step hwf hx hfld hsz'
  refine ⟨?_, isFullField_iff s'⟩
  by_cases hcw : checkWinner s' = true
  · rw [hdraw', if_pos hcw, hdrawF]
    constructor
    · intro h
      cases h
    · rintro ⟨hns, _⟩
      exact absurd ((checkWinner_iff_specWin s' hwf').mp hcw) hns
  · rw [hdraw', if_neg hcw]
    constructor
    · intro h
      refine ⟨?_, h⟩
      intro hsp
      exact hcw ((checkWinner_iff_specWin s' hwf').mpr hsp)
    · rintro ⟨_, h⟩
      exact h

/-- Witness for C7 at the second move of a fresh 3 × 3 game. -/
theorem draw_iff_full_no_win_witness :
    (m2.flag_draw = true ↔
      (¬ specWin m2.size m2.field ∧ isFullField m2 = true)) ∧
    (isFullField m2 = true ↔ ∀ row ∈ m2.field, ∀ c ∈ row, c ≠ ' ') :=
  draw_iff_full_no_win m1 m2 1 0
    (Reach.step m0 0 0 m1 (Reach.start 3 (by decide)) (by decide) (by decide))
    (by decide) (by decide)

/-- C3: for every placement `setCell` accepts (also out-of-contract ones):
when the resulting state is neither won nor drawn, the active player flips
to the other one; when it is won or drawn, the active player is unchanged,
so after a winning move the active player is the winner. -/
theorem active_player_turn (s s' : TTT) (x y : Int)
    (hap : s.active_player = player_X ∨ s.active_player = player_0)
    (hs : setCell s x y = some s') :
    ((s'.flag_end = false ∧ s'.flag_draw = false) →
      s'.active_player =
        (if s.active_player = player_X then player_0 else player_X) ∧
      s'.active_player ≠ s.active_player) ∧
    ((s'.flag_end = true ∨ s'.flag_draw = true) →
      s'.active_player = s.active_player) := by
  unfold setCell at hs
  cases hpw : pyWrite2 s.field x y (playerMark s) with
  | none =>
    rw [hpw] at hs
    cases hs
  | some f =>
    rw [hpw] at hs
    injection hs with hs
    subst hs
    obtain ⟨_, _, _, he, hd, ha⟩ := nextStep_all { s with field := f }
    refine ⟨?_, ?_⟩
    · rintro ⟨he0, hd0⟩
      rw [he] at he0
      rw [hd, if_neg (by rw [he0]; exact Bool.false_ne_true)] at hd0
      rw [ha, if_neg (by rw [he0]; exact Bool.false_ne_true),
        if_neg (by rw [hd0]; exact Bool.false_ne_true)]
      refine ⟨rfl, ?_⟩
      rcases hap with hx | hx
      · rw [hx, if_pos rfl]
        decide
      · have hne : s.active_player ≠ player_X := by
          rw [hx]
          decide
        rw [if_neg hne, hx]
        decide
    · rintro (ht | ht)
      · have hcw : checkWinner (nextStep { s with field := f }) = true := by
          rw [← he]
          exact ht
        rw [ha, if_pos hcw]
      · by_cases hcw : checkWinner (nextStep { s with field := f }) = true
        · rw [ha, if_pos hcw]
        · have hfull : isFullField (nextStep { s with field := f }) = true := by
            rw [hd, if_neg hcw] at ht
            exact ht
          rw [ha, if_neg hcw, if_pos hfull]

/-- Witness for C3 at a non-terminal cross move. -/
theorem active_player_turn_witness :
    ((m3.flag_end = false ∧ m3.flag_draw = false) →
      m3.active_player =
        (if m2.active_player = player_X then player_0 else player_X) ∧
      m3.active_player ≠ m2.active_player) ∧
    ((m3.flag_end = true ∨ m3.flag_draw = true) →
      m3.active_player = m2.active_player) :=
  active_player_turn m2 m3 0 1 (by decide) (by decide)

/-! ## Initialization, query purity -/

/-- C5 (amended): for `N ≥ 3`, the size setter plus `startPlay` leaves an
`N × N` all-empty grid and notifies every subscriber, but touches neither
the active marker nor the terminal flags: those hold their prior values,
and are down with the cross player active only because `__init__` set them
so, as on the freshly constructed instance. -/
theorem startPlay_initializes (s : TTT) (n : Nat) (hn : 3 ≤ n) :
    (startPlay (setSize s n)).field =
      List.replicate n (List.replicate n ' ') ∧
    (startPlay (setSize s n)).size = n ∧
    (startPlay (setSize s n)).active_player = s.active_player ∧
    (startPlay (setSize s n)).flag_end = s.flag_end ∧
    (startPlay (setSize s n)).flag_draw = s.flag_draw ∧
    notifyObserver (startPlay (setSize s n)) = s.observers ∧
    (startPlay (setSize initTTT n)).flag_end = false ∧
    (startPlay (setSize initTTT n)).flag_draw = false ∧
    (startPlay (setSize initTTT n)).active_player = player_X :=
  ⟨rfl, rfl, rfl, rfl, rfl, rfl, rfl, rfl, rfl⟩

/-- Witness for the amended C5 at the won state `m5` and `N = 3`. -/
theorem startPlay_initializes_witness :
    (startPlay (setSize m5 3)).field =
      List.replicate 3 (List.replicate 3 ' ') ∧
    (startPlay (setSize m5 3)).size = 3 ∧
    (startPlay (setSize m5 3)).active_player = m5.active_player ∧
    (startPlay (setSize m5 3)).flag_end = m5.flag_end ∧
    (startPlay (setSize m5 3)).flag_draw = m5.flag_draw ∧
    notifyObserver (startPlay (setSize m5 3)) = m5.observers ∧
    (startPlay (setSize initTTT 3)).flag_end = false ∧
    (startPlay (setSize initTTT 3)).flag_draw = false ∧
    (startPlay (setSize initTTT 3)).active_player = player_X :=
  startPlay_initializes m5 3 (by decide)

/-- Counterexample to C5 as stated: `m5` is a state of the engine reached
by real play (the cross player wins the top row), and calling the size
setter plus `startPlay` on it leaves the end flag up instead of clearing
the terminal flags. -/
theorem startPlay_not_reset :
    Reach m5 ∧ m5.flag_end = true ∧
    (startPlay (setSize m5 3)).flag_end = true := by
  refine ⟨?_, by decide, by decide⟩
  have r0 : Reach m0 := Reach.start 3 (by decide)
  have r1 : Reach m1 := Reach.step m0 0 0 m1 r0 (by decide) (by decide)
  have r2 : Reach m2 := Reach.step m1 1 0 m2 r1 (by decide) (by decide)
  have r3 : Reach m3 := Reach.step m2 0 1 m3 r2 (by decide) (by decide)
  have r4 : Reach m4 := Reach.step m3 1 1 m4 r3 (by decide) (by decide)
  exact Reach.step m4 0 2 m5 r4 (by decide) (by decide)

/-- C8: `getData` has no side effects: it returns the state unchanged, and
repeated calls without an intervening placement return identical
values. -/
theorem getData_pure (s : TTT) :
    (getData s).2 = s ∧ getData ((getData s).2) = getData s :=
  ⟨rfl, rfl⟩

/-! ## Frame properties of `setCell` and the heap model -/

theorem getD_range (n i : Nat) (hi : i < n) : (List.range n).getD i 0 = i := by
  rw [List.getD_eq_getElem _ 0 (by simpa using hi)]
  simp [List.getElem_range]

theorem rowVal_engineWrite_ne {n xh jh ih2 : Nat} (c : Char)
    (hih : ih2 < n) (hxh : xh < n) (hne : ih2 ≠ xh) :
    rowVal (engineWrite (allocField n) xh jh c) ih2 =
      rowVal (allocField n) ih2 := by
  unfold engineWrite storeWrite rowVal allocField
  simp only []
  rw [getD_range n xh hxh, getD_range n ih2 hih, getD_set]
  have hno : ¬ (ih2 = xh ∧
      xh < (List.replicate n (List.replicate n ' ')).length) := by
    rintro ⟨h1, _⟩
    exact hne h1
  rw [if_neg hno]

/-- C9: a contract-respecting `setCell (x, y)` writes the active marker
into exactly cell `(x, y)`: the written cell holds the marker, every other
in-bounds cell is unchanged, and the size and the observer list are
untouched; moreover the rows `startPlay` allocates are `n` distinct fresh
list objects, so the engine's write into row `xh` leaves every other row
object's contents unchanged. -/
theorem setCell_frame (s s' : TTT) (x y i j n ih2 xh jh : Nat) (c : Char)
    (hwf : WF s) (hx : x < s.size) (hy : y < s.size)
    (hs : setCell s (x : Int) (y : Int) = some s')
    (hi : i < s.size) (hj : j < s.size) (hih : ih2 < n) (hxh : xh < n) :
    cellD s'.field x y = playerMark s ∧
    (¬(i = x ∧ j = y) → cellD s'.field i j = cellD s.field i j) ∧
    s'.size = s.size ∧ s'.observers = s.observers ∧
    (ih2 ≠ xh → rowVal (engineWrite (allocField n) xh jh c) ih2 =
      rowVal (allocField n) ih2) := by
  obtain ⟨hfld, hsz', hobs', _, _, _⟩ :=
    setCell_step_facts s s' x y hwf hx hy hs
  have hx' : x < s.field.length := by rw [hwf.1]; exact hx
  have hy' : y < (s.field.getD x []).length := by
    rw [List.getD_eq_getElem _ [] hx', hwf.2 _ (List.getElem_mem hx')]
    exact hy
  refine ⟨?_, ?_, hsz', hobs', fun hne => rowVal_engineWrite_ne c hih hxh hne⟩
  · rw [hfld, cellD_writeCell hx' hy' x y, if_pos ⟨rfl, rfl⟩]
  · intro hne
    rw [hfld, cellD_writeCell hx' hy' i j, if_neg hne]

/-- Witness for C9 at the move `(1, 1)` of the game `m3 → m4`, checking
the untouched cell `(0, 0)` and heap rows `0 ≠ 1`. -/
theorem setCell_frame_witness :
    cellD m4.field 1 1 = playerMark m3 ∧
    (¬((0 : Nat) = 1 ∧ (0 : Nat) = 1) →
      cellD m4.field 0 0 = cellD m3.field 0 0) ∧
    m4.size = m3.size ∧ m4.observers = m3.observers ∧
    ((0 : Nat) ≠ 1 → rowVal (engineWrite (allocField 3) 1 0 'X') 0 =
      rowVal (allocField 3) 0) :=
  setCell_frame m3 m4 1 1 0 0 3 0 1 0 'X' (by decide) (by decide) (by decide)
    (by decide) (by decide) (by decide) (by decide) (by decide)

theorem setCell_int_eq (s : TTT) (x y : Int) (hwf : WF s)
    (hx1 : -(s.size : Int) ≤ x) (hx2 : x < (s.size : Int))
    (hy1 : -(s.size : Int) ≤ y) (hy2 : y < (s.size : Int)) :
    setCell s x y =
      some (nextStep
        (writtenState s (pyResolve s.size x) (pyResolve s.size y))) ∧
    pyResolve s.size x < s.size ∧ pyResolve s.size y < s.size := by
  obtain ⟨hidx, hxr⟩ := pyIdx_some s.field.length x
    (by rw [hwf.1]; exact hx1) (by rw [hwf.1]; exact hx2)
  have hrowlen : (s.field.getD (pyResolve s.field.length x) []).length =
      s.size := by
    rw [List.getD_eq_getElem _ [] hxr]
    exact hwf.2 _ (List.getElem_mem hxr)
  obtain ⟨hidy, hyr⟩ := pyIdx_some
    (s.field.getD (pyResolve s.field.length x) []).length y
    (by rw [hrowlen]; exact hy1) (by rw [hrowlen]; exact hy2)
  have hxeq : pyResolve s.field.length x = pyResolve s.size x := by
    rw [hwf.1]
  have hyeq : pyResolve
      (s.field.getD (pyResolve s.field.length x) []).length y =
      pyResolve s.size y := by
    rw [hrowlen]
  refine ⟨?_, ?_, ?_⟩
  · unfold setCell pyWrite2 writtenState
    rw [hidx]
    simp only []
    rw [hidy, hyeq, hxeq]
  · rw [← hxeq, ← hwf.1]
    exact hxr
  · rw [← hyeq, ← hrowlen]
    exact hyr

/-- C10: for every coordinate pair of Python-valid indices, in particular
those with a component in `[-N, -1]` (which the view's missing lower-bound
check lets through), `setCell` does not fail: a negative index `i` is
resolved to `N + i`, and the mark lands in the cell at the opposite end of
the grid. -/
theorem setCell_negative_resolves (s : TTT) (x y : Int) (hwf : WF s)
    (hx1 : -(s.size : Int) ≤ x) (hx2 : x < (s.size : Int))
    (hy1 : -(s.size : Int) ≤ y) (hy2 : y < (s.size : Int)) :
    (setCell s x y).isSome = true ∧
    cellD ((setCell s x y).getD s).field (pyResolve s.size x)
      (pyResolve s.size y) = playerMark s ∧
    (x < 0 → pyResolve s.size x = ((s.size : Int) + x).toNat) ∧
    (y < 0 → pyResolve s.size y = ((s.size : Int) + y).toNat) := by
  obtain ⟨heq, hxr, hyr⟩ := setCell_int_eq s x y hwf hx1 hx2 hy1 hy2
  have hx' : pyResolve s.size x < s.field.length := by rw [hwf.1]; exact hxr
  have hy' : pyResolve s.size y <
      (s.field.getD (pyResolve s.size x) []).length := by
    rw [List.getD_eq_getElem _ [] hx', hwf.2 _ (List.getElem_mem hx')]
    exact hyr
  refine ⟨?_, ?_, ?_, ?_⟩
  · rw [heq]
    rfl
  · rw [heq]
    simp only [Option.getD_some]
    rw [nextStep_field]
    show cellD (writeCell s.field (pyResolve s.size x) (pyResolve s.size y) (playerMark s)) (pyResolve s.size x) (pyResolve s.size y) = playerMark s
    rw [cellD_writeCell hx' hy' (pyResolve s.size x) (pyResolve s.size y),
      if_pos ⟨rfl, rfl⟩]
  · intro hneg
    unfold pyResolve
    rw [if_pos hneg]
  · intro hneg
    unfold pyResolve
    rw [if_pos hneg]

/-- Witness for C10: on the fresh 3 × 3 board, the move `(-1, -3)` is
accepted and the cross lands at `(2, 0)`. -/
theorem setCell_negative_resolves_witness :
    (setCell m0 (-1) (-3)).isSome = true ∧
    cellD ((setCell m0 (-1) (-3)).getD m0).field (pyResolve m0.size (-1))
      (pyResolve m0.size (-3)) = playerMark m0 ∧
    ((-1 : Int) < 0 → pyResolve m0.size (-1) = ((m0.size : Int) + -1).toNat) ∧
    ((-3 : Int) < 0 → pyResolve m0.size (-3) = ((m0.size : Int) + -3).toNat) :=
  setCell_negative_resolves m0 (-1) (-3) (by decide) (by decide) (by decide)
    (by decide) (by decide)

/-! ## The shallow snapshot of `getData` -/

/-- Counterexample to C4 as stated: on a fresh 3 × 3 field, an observer
writing `"X"` through cell `(0, 0)` of a snapshot's grid changes the
engine's authoritative cell `(0, 0)` from empty to `"X"`: `copy.copy`
shares the inner row objects instead of isolating them. -/
theorem getData_not_isolated :
    cellVal (allocField 3) 0 0 = ' ' ∧
    cellVal (snapWrite (allocField 3) (getDataField (allocField 3)) 0 0 'X')
      0 0 = 'X' := by
  decide

/-- C4 (amended): `copy.copy` in `getData` copies only the outer list:
the snapshot's entries are the engine's own row objects, so an observer
writing `c` through the snapshot's cell `(i, j)` makes the engine's
authoritative cell `(i, j)` read `c`; only the outer row list itself is
isolated from the snapshot. -/
theorem getData_shallow_copy (n i j : Nat) (c : Char) (hi : i < n)
    (hj : j < n) :
    cellVal (snapWrite (allocField n) (getDataField (allocField n)) i j c)
      i j = c ∧
    (snapWrite (allocField n) (getDataField (allocField n)) i j c).rows =
      (allocField n).rows := by
  refine ⟨?_, rfl⟩
  unfold snapWrite storeWrite getDataField cellVal rowVal allocField
  simp only []
  rw [getD_range n i hi, getD_set, if_pos ⟨rfl, by simpa using hi⟩]
  have hrow : (List.replicate n (List.replicate n ' ')).getD i [] =
      List.replicate n ' ' := by
    rw [List.getD_eq_getElem _ [] (by simpa using hi)]
    simp [List.getElem_replicate]
  rw [hrow, getD_set, if_pos ⟨rfl, by simpa using hj⟩]

/-- Witness for the amended C4 at `n = 3`, cell `(0, 1)`, marker `"0"`. -/
theorem getData_shallow_copy_witness :
    cellVal (snapWrite (allocField 3) (getDataField (allocField 3)) 0 1 '0')
      0 1 = '0' ∧
    (snapWrite (allocField 3) (getDataField (allocField 3)) 0 1 '0').rows =
      (allocField 3).rows :=
  getData_shallow_copy 3 0 1 '0' (by decide) (by decide)

/-! ## The view's input validation -/

/-- C6 (amended): every input line the view accepts and forwards parses
as exactly two integers `x y` with `x ≤ size` and `y ≤ size`, whose
target cell -- located by Python indexing, so a coordinate in
`[1-size, 0]` wraps to the opposite end of the grid -- is empty; the
lower bound `1` is never checked, and a coordinate below `1-size` raises
an uncaught `IndexError` instead of a re-prompt.  Rejected lines only
re-prompt: no engine call is made. -/
theorem processLine_accept_bounds (size : Nat) (field : List (List Char))
    (line : List Char) (x y : Int)
    (h : processLine size field line = MoveOutcome.accept x y) :
    x ≤ (size : Int) ∧ y ≤ (size : Int) ∧
    pyGet2 field (x - 1) (y - 1) = some ' ' := by
  simp only [processLine] at h
  repeat' split at h
  all_goals try exact MoveOutcome.noConfusion h
  injection h with h1 h2
  subst h1
  subst h2
  rename_i hbound xopt c hget hnotne
  have hc : c = ' ' := not_not.mp hnotne
  subst hc
  exact ⟨by omega, by omega, hget⟩

/-- Witness for the amended C6: on the fresh 3 × 3 grid the line `"1 2"`
is accepted, both coordinates are within bounds and the target cell is
empty. -/
theorem processLine_accept_bounds_witness :
    (1 : Int) ≤ ((3 : Nat) : Int) ∧ (2 : Int) ≤ ((3 : Nat) : Int) ∧
    pyGet2 m0.field (1 - 1) (2 - 1) = some ' ' :=
  processLine_accept_bounds 3 m0.field ['1', ' ', '2'] 1 2 (by decide)

/-- Counterexample to C6 as stated: on the fresh 3 × 3 grid the input
line `"0 1"` is accepted and forwarded as a move, though its first
1-based coordinate `0` is not within `[1, size]` -- the view checks only
the upper bound, and Python index resolution sends the mark to the
bottom row. -/
theorem processLine_no_lower_bound :
    processLine 3 m0.field ['0', ' ', '1'] = MoveOutcome.accept 0 1 ∧
    ¬((1 : Int) ≤ 0) :=
  ⟨by decide, by decide⟩
